import Mathlib

/-!
Verification of the foxhole-stockpiles client against its specification.

The development shallowly embeds the parts of the program the claims are
about:

* `models/keypress.py` — the key-capture state machine (`KeyPress.__on_press`,
  `KeyPress.__on_release`, `KeyPress.read_key`) and the hotkey transcoder
  (`KeyPress.prepare_for_global_hotkey` with its inner `_transform`).
* `core/config.py` — `write_ini_file`, `SectionSettings.from_dict`,
  `AppSettings.from_ini`, `AppSettings.save`.
* `core/env_interpolation.py` — `EnvInterpolation._expandvars`.
* `i18n/translator.py` — `Translator.get`.

Key events arrive from a third-party keyboard library; following the spec's
data-model notes they are embedded as a closed tagged variant.  Python
strings are `String` / `List Char`, dictionaries are association lists, and
fallible code returns `Option` / `Except`.
-/

/-- Decidable equality for `Except`, used to evaluate the embedded fallible
functions on concrete inputs. -/
instance {ε α : Type} [DecidableEq ε] [DecidableEq α] : DecidableEq (Except ε α) := fun x y =>
  match x, y with
  | .ok a, .ok b =>
    if h : a = b then .isTrue (by rw [h]) else .isFalse (by intro hh; cases hh; exact h rfl)
  | .error a, .error b =>
    if h : a = b then .isTrue (by rw [h]) else .isFalse (by intro hh; cases hh; exact h rfl)
  | .ok _, .error _ => .isFalse (by intro hh; cases hh)
  | .error _, .ok _ => .isFalse (by intro hh; cases hh)

/-! ## String helpers (Python string primitives used by the source) -/

/-- Python `"+".join(ts)` at the character-list level. -/
def joinPlusL : List (List Char) → List Char
  | [] => []
  | [t] => t
  | t :: ts => t ++ '+' :: joinPlusL ts

/-- Python `"+".join(ts)`. -/
def joinPlus (ts : List String) : String :=
  String.mk (joinPlusL (ts.map String.data))

/-- Python `s.split(sep)` for a one-character separator, at the
character-list level: split at every separator, keeping empty pieces, never
returning an empty list. -/
def splitChar (sep : Char) : List Char → List (List Char)
  | [] => [[]]
  | c :: cs =>
    if c = sep then [] :: splitChar sep cs
    else
      match splitChar sep cs with
      | g :: gs => (c :: g) :: gs
      | [] => [[c]]

/-- Python `s.split('+')` (`keys.split('+')` in the transcoder). -/
def pySplit (s : String) : List String :=
  (splitChar '+' s.data).map String.mk

/-- Python `s.split('.')` (`key.split(".")` in the translator). -/
def pySplitDot (s : String) : List String :=
  (splitChar '.' s.data).map String.mk

/-- Python `'numpad_' in key` (substring test), specialised to the pattern
`numpad_`: true iff the pattern is a prefix of some suffix. -/
def containsNumpad : List Char → Bool
  | [] => false
  | c :: cs => ("numpad_".data.isPrefixOf (c :: cs)) || containsNumpad cs

/-- Python `key.replace('numpad_', '')`: delete every non-overlapping,
left-to-right occurrence of `numpad_`. -/
def replaceNumpad : List Char → List Char
  | 'n' :: 'u' :: 'm' :: 'p' :: 'a' :: 'd' :: '_' :: rest => replaceNumpad rest
  | c :: cs => c :: replaceNumpad cs
  | [] => []

/-- A nonempty all-digit character list read as a decimal number
(Python `str.isdigit` plus decimal conversion). -/
def parseDigits (l : List Char) : Option Nat :=
  if l ≠ [] ∧ l.all Char.isDigit then
    some (l.foldl (fun a c => a * 10 + (c.toNat - 48)) 0)
  else none

/-- Python `int(s)`: strip surrounding whitespace, allow one optional sign,
then decimal digits.  (Digit-group underscores, accepted by Python, are not
modelled; every input the claims mention is plain digits or fails in both.) -/
def pyInt (s : String) : Option Int :=
  let l := ((s.data.dropWhile Char.isWhitespace).reverse.dropWhile Char.isWhitespace).reverse
  match l with
  | '-' :: rest => (parseDigits rest).map (fun n => -(n : Int))
  | '+' :: rest => (parseDigits rest).map (fun n => (n : Int))
  | _ => (parseDigits l).map (fun n => (n : Int))

/-! ## Key events

`models/keypress.py` dispatches on the shapes of the third-party key
objects: `Key` members whose canonical form is still a `Key` are the
modifiers (ctrl/shift/alt/cmd, side variants collapsed by the listener),
`Key` members whose canonical form is a key code are the named special keys,
and `KeyCode` objects carry a virtual-key code and possibly a character.
Following the spec's data-model note this is embedded as a closed variant;
`mod` carries both the raw (side-variant) name and the canonical name the
listener reports, and `code`'s optional character is the canonical
(lowercased) character the listener reports. -/
inductive RawKey where
  /-- A modifier key press: raw key identity and canonical modifier name. -/
  | mod (raw canon : String)
  /-- A named special key (`space`, `f4`, `pause`, `esc`, …). -/
  | special (name : String)
  /-- A `KeyCode` with a virtual-key code and optional canonical character. -/
  | code (vk : Nat) (ch : Option String)
deriving DecidableEq, Repr

/-- Python `repr` of the one-character string `c` (as produced by
`str(KeyCode.from_char(c))`): single-quote delimiters, or double quotes when
the character is itself a single quote. -/
def pyReprChar (c : String) : List Char :=
  if '\'' ∈ c.data then '"' :: c.data ++ ['"'] else '\'' :: c.data ++ ['\'']

/-- `str(canonical_key).replace("'", "")` for a character key
(`keypress.py` line 77). -/
def charToken (c : String) : String :=
  String.mk ((pyReprChar c).filter (fun ch => ch ≠ '\''))

/-- The token produced for a `KeyCode` press (`keypress.py` lines 70–77):
numpad digits, numpad plus/minus, then character keys. -/
def codeToken (vk : Nat) (ch : Option String) : String :=
  if 96 ≤ vk ∧ vk ≤ 105 then "numpad_" ++ toString (vk - 96)
  else if vk = 107 then "numpad_plus"
  else if vk = 109 then "numpad_-"
  else
    match ch with
    | some c => charToken c
    | none => "<" ++ toString vk ++ ">"

/-- Bracketed key name, `"<{}>".format(name)`. -/
def bracket (s : String) : String :=
  "<" ++ s ++ ">"

/-- The canonical display token of a key (spec §4.2): the string
`KeyPress.__on_press` stores for that key. -/
def canonicalToken : RawKey → String
  | .mod _ canon => bracket canon
  | .special name => bracket name
  | .code vk ch => codeToken vk ch

/-! ## The key-capture state machine -/

/-- The mutable state of one `KeyPress` capture: the latched non-modifier
token (`self.__key`), the ordered modifier tokens (`self.__modifiers`) and
the set of currently held keys (`self.__pressed_keys`, kept as a
duplicate-free list). -/
structure KPState where
  key : Option String
  modifiers : List String
  pressed : List RawKey
deriving DecidableEq, Repr

/-- `KeyPress.__clean_vars`. -/
def cleanState : KPState :=
  ⟨none, [], []⟩

/-- `KeyPress.__on_press`.  Returns the new state and whether the listener
keeps running (Python `return False` stops it). -/
def on_press (s : KPState) (k : RawKey) : KPState × Bool :=
  if k = RawKey.special "esc" then (cleanState, false)
  else
    let s1 := if k ∈ s.pressed then s else { s with pressed := s.pressed ++ [k] }
    if s1.key.isSome then (s1, true)
    else
      match k with
      | .mod _ canon =>
        let name := bracket canon
        if name ∈ s1.modifiers then (s1, true)
        else ({ s1 with modifiers := s1.modifiers ++ [name] }, true)
      | .special nm => ({ s1 with key := some (bracket nm) }, true)
      | .code vk ch => ({ s1 with key := some (codeToken vk ch) }, true)

/-- `KeyPress.__on_release`: drop the key from the held set and stop the
listener when the set becomes empty. -/
def on_release (s : KPState) (k : RawKey) : KPState × Bool :=
  if k ∈ s.pressed then
    let s1 := { s with pressed := s.pressed.erase k }
    (s1, !s1.pressed.isEmpty)
  else (s, true)

/-- One key event delivered by the listener. -/
inductive KEvent where
  | press (k : RawKey)
  | release (k : RawKey)
deriving DecidableEq, Repr

/-- Dispatch of one event to the two callbacks. -/
def stepEvent (s : KPState) : KEvent → KPState × Bool
  | .press k => on_press s k
  | .release k => on_release s k

/-- Run the listener over a finite event trace: returns the state reached
and whether the listener is still running (callbacks stop it by returning
`false`). -/
def runListener : KPState → List KEvent → KPState × Bool
  | s, [] => (s, true)
  | s, e :: es =>
    match stepEvent s e with
    | (s', true) => runListener s' es
    | (s', false) => (s', false)

/-- The combination string assembled at the end of `KeyPress.read_key`
(lines 89–96): ordered modifiers, then the latched token if truthy,
`+`-joined. -/
def read_result (s : KPState) : String :=
  joinPlus (s.modifiers ++
    (match s.key with
     | some k => if k = "" then [] else [k]
     | none => []))

/-- `KeyPress.read_key` on an event trace: blocks (`none`) unless some
callback stopped the listener, in which case the joined combination is
returned. -/
def read_key (events : List KEvent) : Option String :=
  match runListener cleanState events with
  | (_, true) => none
  | (s, false) => some (read_result s)

/-! ## The hotkey transcoder (`KeyPress.prepare_for_global_hotkey`) -/

/-- The modifier names the transcoder leaves untouched
(`keypress.py` line 143). -/
def modNames : List String :=
  ["shift", "ctrl", "alt", "cmd"]

/-- The bracketed modifier tokens. -/
def modTokens : List String :=
  modNames.map bracket

/-- Modelled from the spec: the key-name table of the global-hotkey
facility's parser — "named special keys become bracketed names using their
library-assigned name" and the parser "reports the bracketed decimal
virtual-key value" for each key.  The facility itself is a third-party
library, not part of this repository; the table lists the names and
virtual-key codes the spec mentions (f3 ↦ 114 from §8, pause ↦ 19 from
§4.3) together with the four modifiers and a few more named keys. -/
def keyNameTable : List (String × Nat) :=
  [("shift", 160), ("ctrl", 162), ("alt", 164), ("cmd", 91),
   ("f3", 114), ("f4", 115), ("pause", 19), ("space", 32),
   ("tab", 9), ("esc", 27), ("left", 37), ("scroll_lock", 145)]

/-- A key object returned by the facility's combination parser: a plain
character key code, a raw virtual-key code, or a named key (with the
virtual-key value the facility assigns to it). -/
inductive ParsedKey where
  | charKey (c : String)
  | vkKey (vk : Nat)
  | namedKey (name : String) (vk : Nat)
deriving DecidableEq, Repr

/-- Modelled from the spec: one token as understood by the facility's
combination parser (§4.3 step 3) — a single character, a bracketed decimal
virtual-key code, or a bracketed key name from the facility's table; any
other token is a parse failure. -/
def parsePart (s : String) : Option ParsedKey :=
  if s.length = 1 then some (.charKey s)
  else
    match s.data with
    | '<' :: rest =>
      match rest.getLast? with
      | some '>' =>
        let p := String.mk rest.dropLast
        match parseDigits p.data with
        | some vk => some (.vkKey vk)
        | none =>
          match keyNameTable.lookup p with
          | some vk => some (.namedKey p vk)
          | none => none
      | _ => none
    | _ => none

/-- Modelled from the spec: the facility's combination parser over the
`+`-separated token list; fails if any token is invalid. -/
def parseAll : List String → Option (List ParsedKey)
  | [] => some []
  | t :: ts =>
    match parsePart t with
    | none => none
    | some k =>
      match parseAll ts with
      | none => none
      | some ks => some (k :: ks)

/-- The errors `prepare_for_global_hotkey` can signal: the uncaught
`ValueError` from `int()` inside `_transform` (carrying only the stripped
token), or the `ValueError("Error parsing [keys]")` raised when the
facility's parser rejects the string (carrying the original combination). -/
inductive TranscodeError where
  | intConv (tok : String)
  | malformed (keys : String)
deriving DecidableEq, Repr

/-- The inner `_transform` of `prepare_for_global_hotkey`
(`keypress.py` lines 117–128). -/
def _transform (key : String) : Except TranscodeError String :=
  if containsNumpad key.data = false then .ok key
  else
    let k := String.mk (replaceNumpad key.data)
    if k = "plus" then .ok "<107>"
    else if k = "-" then .ok "<109>"
    else
      match pyInt k with
      | some i => .ok ("<" ++ toString (i + 96) ++ ">")
      | none => .error (.intConv k)

/-- The `_transform` loop over the split tokens (`keypress.py` lines
131–133); the first `int()` failure aborts the call. -/
def mapTransform : List String → Except TranscodeError (List String)
  | [] => .ok []
  | t :: ts =>
    match _transform t with
    | .error e => .error e
    | .ok t' =>
      match mapTransform ts with
      | .error e => .error e
      | .ok ts' => .ok (t' :: ts')

/-- The per-key replacement of `prepare_for_global_hotkey` (lines 141–146):
named non-modifier keys become their bracketed virtual-key value
(`str(key.value)`), everything else keeps the transformed token. -/
def replaceStep (pk : ParsedKey) (tok : String) : String :=
  match pk with
  | .namedKey name vk => if name ∈ modNames then tok else "<" ++ toString vk ++ ">"
  | _ => tok

/-- `KeyPress.prepare_for_global_hotkey` (`keypress.py` lines 98–148). -/
def prepare_for_global_hotkey (keys : String) : Except TranscodeError String :=
  match mapTransform (pySplit keys) with
  | .error e => .error e
  | .ok hotkey_list =>
    match parseAll hotkey_list with
    | none => .error (.malformed keys)
    | some parsed_keys =>
      .ok (joinPlus ((parsed_keys.zip hotkey_list).map fun pk => replaceStep pk.1 pk.2))

/-! ## Environment-variable interpolation (`core/env_interpolation.py`) -/

/-- Try to match the regular expression `\$\{([^@\}]*)[@]?([^}]*)\}` at the
head of the input: `${`, then the name (greedy run without `@` or `}`), an
optional `@`, the default (greedy run without `}`), then `}`.  Returns the
name, the default and the rest of the input. -/
def tryMatch : List Char → Option (List Char × List Char × List Char)
  | '$' :: '{' :: rest =>
    let name := rest.takeWhile (fun c => c ≠ '@' && c ≠ '}')
    let r1 := rest.dropWhile (fun c => c ≠ '@' && c ≠ '}')
    let r2 := match r1 with
      | '@' :: t => t
      | _ => r1
    let dflt := r2.takeWhile (fun c => c ≠ '}')
    match r2.dropWhile (fun c => c ≠ '}') with
    | '}' :: post => some (name, dflt, post)
    | _ => none
  | _ => none

/-- `pattern.search(value, i)`: the leftmost match of the interpolation
pattern, split as (text before the match, name, default, text after). -/
def findMatch : List Char → Option (List Char × List Char × List Char × List Char)
  | [] => none
  | c :: cs =>
    match tryMatch (c :: cs) with
    | some (name, dflt, post) => some ([], name, dflt, post)
    | none => (findMatch cs).map (fun r => (c :: r.1, r.2))

/-- `os.environ.get(name) or default`: the environment value when set and
nonempty, the default otherwise. -/
def envOr (env : List (String × String)) (name : String) (dflt : List Char) : List Char :=
  match env.lookup name with
  | some v => if v = "" then dflt else v.data
  | none => dflt

/-- The substitution loop of `EnvInterpolation._expandvars`
(`env_interpolation.py` lines 13–31): find the leftmost pattern occurrence,
substitute it, continue after the substituted text.  `m.group(2)` of the
pattern always matches (possibly the empty string), so the substituted value
is never `None` and every occurrence is rewritten.  The fuel argument only
bounds the recursion; matches consume at least three characters, so initial
fuel `s.length` never runs out. -/
def expandGo (env : List (String × String)) : Nat → List Char → List Char
  | 0, s => s
  | fuel + 1, s =>
    match findMatch s with
    | none => s
    | some (pre, name, dflt, post) =>
      pre ++ envOr env (String.mk name) dflt ++ expandGo env fuel post

/-- `EnvInterpolation._expandvars`. -/
def expandStr (env : List (String × String)) (s : String) : String :=
  String.mk (expandGo env s.data.length s.data)

/-! ## The configuration store (`core/config.py`)

The INI file itself is handled by `configparser`, a third-party facility the
spec describes as "key-value sections … read/written as plain structured
data"; it is modelled at that granularity: a file is a list of sections,
each a list of key/value string pairs.  `configparser` lower-cases option
names on read, `read_ini_file` lower-cases section names, `write_ini_file`
upper-cases them, and `EnvInterpolation.before_read` expands environment
variables in every value read. -/

/-- Python `s.upper()` on the ASCII section names used here. -/
def pyUpper (s : String) : String :=
  String.mk (s.data.map Char.toUpper)

/-- Python `s.lower()` (the `configparser` option transform and the
`section.lower()` of `read_ini_file`) on the ASCII names used here. -/
def pyLower (s : String) : String :=
  String.mk (s.data.map Char.toLower)

/-- `KeybindSettings` (`config.py` lines 85–86). -/
structure KeybindSettings where
  key : Option String
deriving DecidableEq, Repr

/-- `ServerSettings` (`config.py` lines 88–90). -/
structure ServerSettings where
  token : Option String
  url : String
deriving DecidableEq, Repr

/-- Default API URL of `ServerSettings.url`. -/
def defaultUrl : String :=
  "https://fs.veli.team/fs/ocr/scan_image"

/-- `AppSettings` (`config.py` lines 94–96). -/
structure AppSettings where
  keybind : Option KeybindSettings
  server : Option ServerSettings
deriving DecidableEq, Repr

/-- `AppSettings.model_dump()`: sections in declaration order, each field as
an optional string. -/
def model_dump (s : AppSettings) : List (String × Option (List (String × Option String))) :=
  [("keybind", s.keybind.map fun kb => [("key", kb.key)]),
   ("server", s.server.map fun sv => [("token", sv.token), ("url", some sv.url)])]

/-- `write_ini_file` (`config.py` lines 27–42): skip absent or empty
sections, keep only truthy values (drop `None` and the empty string),
upper-case section names. -/
def write_ini_file (data : List (String × Option (List (String × Option String)))) :
    List (String × List (String × String)) :=
  data.filterMap fun sec =>
    match sec.2 with
    | none => none
    | some kvs =>
      if kvs = [] then none
      else some (pyUpper sec.1, kvs.filterMap fun kv =>
        match kv.2 with
        | some v => if v = "" then none else some (kv.1, v)
        | none => none)

/-- `read_ini_file` (`config.py` lines 13–25) combined with the
`configparser` read path: section names lower-cased, option names
lower-cased, every value run through `EnvInterpolation._expandvars`. -/
def read_ini_file (ini : List (String × List (String × String)))
    (env : List (String × String)) : List (String × List (String × String)) :=
  ini.map fun sec => (pyLower sec.1, sec.2.map fun kv => (pyLower kv.1, expandStr env kv.2))

/-- `KeybindSettings.from_dict`: a field present in the section dictionary
is converted with `str` (the identity on these string values), a missing
field keeps its default. -/
def KeybindSettings.from_dict (d : List (String × String)) : KeybindSettings :=
  { key := d.lookup "key" }

/-- `ServerSettings.from_dict`. -/
def ServerSettings.from_dict (d : List (String × String)) : ServerSettings :=
  { token := d.lookup "token", url := (d.lookup "url").getD defaultUrl }

/-- `AppSettings.from_ini` (`config.py` lines 98–123): build each section
from its dictionary when the section is present, then replace any still
falsy section with a default instance. -/
def AppSettings.from_ini (ini : List (String × List (String × String)))
    (env : List (String × String)) : AppSettings :=
  let data := read_ini_file ini env
  { keybind := some (match data.lookup "keybind" with
      | some d => KeybindSettings.from_dict d
      | none => { key := none }),
    server := some (match data.lookup "server" with
      | some d => ServerSettings.from_dict d
      | none => { token := none, url := defaultUrl }) }

/-- `AppSettings.save` (`config.py` lines 125–132). -/
def AppSettings.save (s : AppSettings) : List (String × List (String × String)) :=
  write_ini_file (model_dump s)

/-! ## Translation lookup (`i18n/translator.py`) -/

/-- A JSON value as loaded by `json.load` for the translation files. -/
inductive JValue where
  | null
  | bool (b : Bool)
  | num (n : Int)
  | str (s : String)
  | arr (xs : List JValue)
  | obj (fields : List (String × JValue))

/-- Python `str(value)` on a found translation value.  Scalars render as in
Python; the composite renderings are abbreviated, no claim depends on
them. -/
def pyStr : JValue → String
  | .str s => s
  | .null => "None"
  | .bool b => if b then "True" else "False"
  | .num n => toString n
  | .arr _ => "[...]"
  | .obj _ => "\x7b...\x7d"

/-- The descent loop of `Translator.get` (`translator.py` lines 46–52):
walk the dot-separated segments; `none` means the loop returned the key
early (segment missing, value `None`, or descent into a non-dictionary). -/
def lookupLoop : JValue → List String → Option JValue
  | v, [] => some v
  | .obj fields, k :: ks =>
    (match fields.lookup k with
     | none => none
     | some .null => none
     | some v => lookupLoop v ks)
  | _, _ :: _ => none

/-- `Translator.get` without format parameters (`translator.py` lines
33–57): the found string, `str` of a found non-string value, or the key
itself when the path is missing or ends at `null`. -/
def translator_get (tr : JValue) (key : String) : String :=
  match lookupLoop tr (pySplitDot key) with
  | none => key
  | some v =>
    match v with
    | .null => key
    | _ => pyStr v

/-- The claim-side condition on a lookup path, following the words of the
claim: some segment of the path is absent from the dictionary at that
point, or the path descends into a non-dictionary value. -/
def missingPath : JValue → List String → Bool
  | _, [] => false
  | .obj fields, k :: ks =>
    (match fields.lookup k with
     | none => true
     | some v => missingPath v ks)
  | _, _ :: _ => true

/-! ## Supporting lemmas -/

/-- Running the listener over a concatenated trace: the second part runs
only while the listener is still alive. -/
theorem runListener_append (s : KPState) (xs ys : List KEvent) :
    runListener s (xs ++ ys) =
      match runListener s xs with
      | (s', true) => runListener s' ys
      | (s', false) => (s', false) := by
  induction xs generalizing s with
  | nil => simp [runListener]
  | cons e es ih =>
    simp only [List.cons_append, runListener]
    rcases h : stepEvent s e with ⟨s', c⟩
    cases c <;> simp [ih]

/-- `_transform` only ever fails with an `int()`-conversion error. -/
theorem _transform_error_shape (t : String) (e : TranscodeError)
    (h : _transform t = .error e) : ∃ s, e = TranscodeError.intConv s := by
  unfold _transform at h
  split at h
  · exact absurd h (by simp)
  · dsimp only at h
    split at h
    · exact absurd h (by simp)
    · split at h
      · exact absurd h (by simp)
      · split at h
        · exact absurd h (by simp)
        · exact ⟨_, (Except.error.inj h).symm⟩

/-- The `_transform` loop only ever fails with an `int()`-conversion
error. -/
theorem mapTransform_error_shape (ts : List String) (e : TranscodeError)
    (h : mapTransform ts = .error e) : ∃ s, e = TranscodeError.intConv s := by
  induction ts with
  | nil => exact absurd h (by simp [mapTransform])
  | cons t ts ih =>
    unfold mapTransform at h
    cases ht : _transform t with
    | error e2 =>
      rw [ht] at h
      obtain rfl : e2 = e := Except.error.inj h
      exact _transform_error_shape t _ ht
    | ok t2 =>
      rw [ht] at h
      cases hm : mapTransform ts with
      | error e2 =>
        rw [hm] at h
        obtain rfl : e2 = e := Except.error.inj h
        exact ih hm
      | ok ts2 => rw [hm] at h; exact absurd h (by simp)

/-- A path flagged missing by the claim-side predicate makes the descent
loop bail out. -/
theorem missingPath_lookupLoop (ks : List String) (v : JValue)
    (h : missingPath v ks = true) : lookupLoop v ks = none := by
  induction ks generalizing v with
  | nil => simp [missingPath] at h
  | cons k ks ih =>
    cases v with
    | obj fields =>
      rw [missingPath] at h
      rw [lookupLoop]
      cases hl : fields.lookup k with
      | none => simp
      | some v' =>
        rw [hl] at h
        cases v' <;> simp_all
    | null => rfl
    | bool b => rfl
    | num n => rfl
    | str s => rfl
    | arr xs => rfl

/-! ## Claim theorems -/

/-- C3: the canonicalizer maps a numpad key with virtual-key code vk in
96–105 to `numpad_<vk-96>`, vk 107 to `numpad_plus`, vk 109 to `numpad_-`;
and `_transform` maps every such token back: suffix `plus` to `<107>`,
suffix `-` to `<109>`, and digit suffix n to `<96+n>` (so `numpad_8`
transcodes to `<104>`). -/
theorem numpad_canonical_and_transcode :
    (∀ vk : Nat, 96 ≤ vk → vk ≤ 105 → ∀ ch, codeToken vk ch = "numpad_" ++ toString (vk - 96))
    ∧ (∀ ch, codeToken 107 ch = "numpad_plus")
    ∧ (∀ ch, codeToken 109 ch = "numpad_-")
    ∧ (∀ n : Nat, n ≤ 9 →
        _transform ("numpad_" ++ toString n) = .ok ("<" ++ toString (96 + n) ++ ">"))
    ∧ _transform "numpad_plus" = .ok "<107>"
    ∧ _transform "numpad_-" = .ok "<109>" := by
  refine ⟨fun vk h1 h2 ch => ?_, fun ch => ?_, fun ch => ?_, ?_, by decide, by decide⟩
  · simp [codeToken, h1, h2]
  · simp [codeToken]
  · simp [codeToken]
  · decide

/-- Evaluation of C3 at numpad digit 8: canonical token and transcoding. -/
theorem numpad_canonical_and_transcode_witness :
    codeToken 104 none = "numpad_" ++ toString (104 - 96)
    ∧ _transform ("numpad_" ++ toString 8) = .ok ("<" ++ toString (96 + 8) ++ ">") :=
  ⟨numpad_canonical_and_transcode.1 104 (by decide) (by decide) none,
   numpad_canonical_and_transcode.2.2.2.1 8 (by decide)⟩

/-- C4 (amended): `prepare_for_global_hotkey` never returns a partial
result; every failure is either the "Error parsing [keys]" error carrying
the original combination string, or — for a `numpad_` token whose suffix is
not an integer — the earlier uncaught `int()` conversion error, which does
not carry the combination. -/
theorem prepare_error_carries (keys : String) (e : TranscodeError)
    (h : prepare_for_global_hotkey keys = .error e) :
    (∃ t, e = TranscodeError.intConv t) ∨ e = TranscodeError.malformed keys := by
  unfold prepare_for_global_hotkey at h
  cases hm : mapTransform (pySplit keys) with
  | error e2 =>
    rw [hm] at h
    obtain rfl : e2 = e := Except.error.inj h
    exact Or.inl (mapTransform_error_shape _ _ hm)
  | ok l =>
    rw [hm] at h
    dsimp only at h
    cases hp : parseAll l with
    | none =>
      rw [hp] at h
      exact Or.inr (Except.error.inj h).symm
    | some ks => rw [hp] at h; exact absurd h (by simp)

/-- Evaluation of the C4 error-shape theorem at the malformed combination
`numpad_x`. -/
theorem prepare_error_carries_witness :
    (∃ t, TranscodeError.intConv "x" = TranscodeError.intConv t)
    ∨ TranscodeError.intConv "x" = TranscodeError.malformed "numpad_x" :=
  prepare_error_carries "numpad_x" (TranscodeError.intConv "x") (by decide)

/-- C4 counterexample: the malformed combination `numpad_x` (an unknown
token) fails with the bare `int()` conversion error, not with the
"malformed keybind" error carrying the original combination string. -/
theorem prepare_malformed_cex :
    prepare_for_global_hotkey "numpad_x" = .error (TranscodeError.intConv "x")
    ∧ TranscodeError.intConv "x" ≠ TranscodeError.malformed "numpad_x" := by
  decide

/-- C5: once a non-modifier token is latched, any further key press other
than Escape leaves the latched token unchanged (first-non-modifier-wins);
Escape clears it, preserving the at-most-one-latched-token invariant. -/
theorem latched_first_wins (s : KPState) (t : String) (k : RawKey)
    (h : s.key = some t) :
    (k ≠ RawKey.special "esc" → (on_press s k).1.key = some t)
    ∧ (k = RawKey.special "esc" → (on_press s k).1.key = none) := by
  constructor
  · intro hk
    unfold on_press
    rw [if_neg hk]
    by_cases hm : k ∈ s.pressed <;> simp [hm, h]
  · intro hk
    subst hk
    simp [on_press, cleanState]

/-- Evaluation of C5: pressing a second non-modifier while `a` is latched
keeps the latched token. -/
theorem latched_first_wins_witness :
    ((RawKey.code 66 (some "b") ≠ RawKey.special "esc" →
      (on_press ⟨some "a", [], [RawKey.code 65 (some "a")]⟩ (RawKey.code 66 (some "b"))).1.key = some "a")
    ∧ (RawKey.code 66 (some "b") = RawKey.special "esc" →
      (on_press ⟨some "a", [], [RawKey.code 65 (some "a")]⟩ (RawKey.code 66 (some "b"))).1.key = none)) :=
  latched_first_wins ⟨some "a", [], [RawKey.code 65 (some "a")]⟩ "a" (RawKey.code 66 (some "b")) rfl

/-- C6: Escape pressed at any point while the capture is still accumulating
resets all state and makes `read_key` return the empty string. -/
theorem esc_resets (evs : List KEvent) (s : KPState)
    (h : (runListener cleanState evs).2 = true) :
    on_press s (RawKey.special "esc") = (cleanState, false)
    ∧ read_key (evs ++ [KEvent.press (RawKey.special "esc")]) = some "" := by
  constructor
  · simp [on_press]
  · unfold read_key
    rw [runListener_append]
    rcases hr : runListener cleanState evs with ⟨s2, c⟩
    rw [hr] at h
    simp only at h
    subst h
    simp [runListener, stepEvent, on_press, read_result, joinPlus, joinPlusL, cleanState]

/-- Evaluation of C6 after two keys are already held. -/
theorem esc_resets_witness :
    on_press cleanState (RawKey.special "esc") = (cleanState, false)
    ∧ read_key ([KEvent.press (RawKey.mod "ctrl" "ctrl"), KEvent.press (RawKey.special "f4")]
        ++ [KEvent.press (RawKey.special "esc")]) = some "" :=
  esc_resets [KEvent.press (RawKey.mod "ctrl" "ctrl"), KEvent.press (RawKey.special "f4")]
    cleanState (by decide)

/-- C7 (amended): during accumulation with no non-modifier latched, a
modifier key-down whose bracketed canonical name is not yet recorded appends
that name and the capture keeps running; once a non-modifier is latched,
modifier key-downs leave the modifier list unchanged (still running). -/
theorem modifier_append (s : KPState) (raw canon : String) :
    (s.key = none → bracket canon ∉ s.modifiers →
      (on_press s (RawKey.mod raw canon)).1.modifiers = s.modifiers ++ [bracket canon]
      ∧ (on_press s (RawKey.mod raw canon)).2 = true)
    ∧ (∀ t, s.key = some t →
      (on_press s (RawKey.mod raw canon)).1.modifiers = s.modifiers
      ∧ (on_press s (RawKey.mod raw canon)).2 = true) := by
  constructor
  · intro hk hmem
    unfold on_press
    by_cases hm : RawKey.mod raw canon ∈ s.pressed <;> simp [hm, hk, hmem]
  · intro t hk
    unfold on_press
    by_cases hm : RawKey.mod raw canon ∈ s.pressed <;> simp [hm, hk]

/-- Evaluation of C7 (amended) in both situations. -/
theorem modifier_append_witness :
    ((on_press ⟨none, [], []⟩ (RawKey.mod "ctrl" "ctrl")).1.modifiers = [] ++ [bracket "ctrl"]
      ∧ (on_press ⟨none, [], []⟩ (RawKey.mod "ctrl" "ctrl")).2 = true)
    ∧ ((on_press ⟨some "a", [], []⟩ (RawKey.mod "shift" "shift")).1.modifiers = []
      ∧ (on_press ⟨some "a", [], []⟩ (RawKey.mod "shift" "shift")).2 = true) :=
  ⟨(modifier_append ⟨none, [], []⟩ "ctrl" "ctrl").1 rfl (by decide),
   (modifier_append ⟨some "a", [], []⟩ "shift" "shift").2 "a" rfl⟩

/-- C7 counterexample: in a live capture where `a` was pressed first, a
subsequent key-down of a fresh modifier appends nothing to the modifier
list, contradicting the claim that it is appended even when a non-modifier
is already latched. -/
theorem modifier_append_cex :
    (runListener cleanState
      [KEvent.press (RawKey.code 65 (some "a")), KEvent.press (RawKey.mod "ctrl" "ctrl")]).1.modifiers = []
    ∧ ([] : List String) ≠ [] ++ [bracket "ctrl"] := by
  decide

/-- C9: `${VAR@default}` is substituted with the default both when VAR is
unset and when VAR is set to the empty string; but a plain `${VAR}` with
VAR unset is not left unchanged — it is deleted (replaced by the empty
string), contradicting the function's own docstring. -/
theorem expandvars_eval :
    expandStr [("VAR", "value")] "${VAR@d}" = "value"
    ∧ expandStr [] "${VAR@d}" = "d"
    ∧ expandStr [("VAR", "")] "${VAR@d}" = "d"
    ∧ expandStr [] "${VAR}" = ""
    ∧ ("" : String) ≠ "${VAR}" := by
  decide

/-- C10: when the dot-separated path has a segment absent from the loaded
translations, or descends into a non-dictionary value, `Translator.get`
returns the key itself (it is total by construction). -/
theorem translator_get_missing (tr : JValue) (key : String)
    (h : missingPath tr (pySplitDot key) = true) :
    translator_get tr key = key := by
  unfold translator_get
  rw [missingPath_lookupLoop _ _ h]

/-- Evaluation of C10 on a missing segment and on a non-dictionary
descent. -/
theorem translator_get_missing_witness :
    translator_get (JValue.obj [("app", JValue.obj [("title", JValue.str "T")])]) "app.missing"
      = "app.missing" :=
  translator_get_missing (JValue.obj [("app", JValue.obj [("title", JValue.str "T")])])
    "app.missing" (by decide)

/-! ## Configuration round-trip (C8) -/

/-- `pyUpper` on the section name `keybind`. -/
theorem pyUpper_keybind : pyUpper "keybind" = "KEYBIND" := by decide

/-- `pyUpper` on the section name `server`. -/
theorem pyUpper_server : pyUpper "server" = "SERVER" := by decide

/-- `pyLower` on the written section name `KEYBIND`. -/
theorem pyLower_KEYBIND : pyLower "KEYBIND" = "keybind" := by decide

/-- `pyLower` on the written section name `SERVER`. -/
theorem pyLower_SERVER : pyLower "SERVER" = "server" := by decide

/-- `pyLower` on the option name `key`. -/
theorem pyLower_key : pyLower "key" = "key" := by decide

/-- `pyLower` on the option name `token`. -/
theorem pyLower_token : pyLower "token" = "token" := by decide

/-- `pyLower` on the option name `url`. -/
theorem pyLower_url : pyLower "url" = "url" := by decide

/-- C8 (amended): for an `AppSettings` whose two sections are present,
whose present string fields are nonempty and whose stored values are left
unchanged by environment-variable interpolation, saving and reloading
reproduces identical field values; in particular optional fields that are
`None` are still `None` after reloading, with no empty string substituted. -/
theorem settings_roundtrip (env : List (String × String)) (kbkey tok : Option String) (url : String)
    (hkb : ∀ v, kbkey = some v → v ≠ "" ∧ expandStr env v = v)
    (htok : ∀ v, tok = some v → v ≠ "" ∧ expandStr env v = v)
    (hurl : url ≠ "") (hurl2 : expandStr env url = url) :
    AppSettings.from_ini (AppSettings.save ⟨some ⟨kbkey⟩, some ⟨tok, url⟩⟩) env
      = ⟨some ⟨kbkey⟩, some ⟨tok, url⟩⟩ := by
  rcases kbkey with _ | v1 <;> rcases tok with _ | v2
  · simp [AppSettings.save, model_dump, write_ini_file, AppSettings.from_ini, read_ini_file,
      KeybindSettings.from_dict, ServerSettings.from_dict, hurl, hurl2,
      pyUpper_keybind, pyUpper_server, pyLower_KEYBIND, pyLower_SERVER,
      pyLower_key, pyLower_token, pyLower_url, List.lookup]
  · obtain ⟨h2ne, h2exp⟩ := htok v2 rfl
    simp [AppSettings.save, model_dump, write_ini_file, AppSettings.from_ini, read_ini_file,
      KeybindSettings.from_dict, ServerSettings.from_dict, hurl, hurl2, h2ne, h2exp,
      pyUpper_keybind, pyUpper_server, pyLower_KEYBIND, pyLower_SERVER,
      pyLower_key, pyLower_token, pyLower_url, List.lookup]
  · obtain ⟨h1ne, h1exp⟩ := hkb v1 rfl
    simp [AppSettings.save, model_dump, write_ini_file, AppSettings.from_ini, read_ini_file,
      KeybindSettings.from_dict, ServerSettings.from_dict, hurl, hurl2, h1ne, h1exp,
      pyUpper_keybind, pyUpper_server, pyLower_KEYBIND, pyLower_SERVER,
      pyLower_key, pyLower_token, pyLower_url, List.lookup]
  · obtain ⟨h1ne, h1exp⟩ := hkb v1 rfl
    obtain ⟨h2ne, h2exp⟩ := htok v2 rfl
    simp [AppSettings.save, model_dump, write_ini_file, AppSettings.from_ini, read_ini_file,
      KeybindSettings.from_dict, ServerSettings.from_dict, hurl, hurl2, h1ne, h1exp, h2ne, h2exp,
      pyUpper_keybind, pyUpper_server, pyLower_KEYBIND, pyLower_SERVER,
      pyLower_key, pyLower_token, pyLower_url, List.lookup]

/-- Evaluation of C8 (amended) at a concrete settings value with a set
keybind, no token, and the default URL. -/
theorem settings_roundtrip_witness :
    AppSettings.from_ini (AppSettings.save ⟨some ⟨some "<f4>"⟩, some ⟨none, defaultUrl⟩⟩) []
      = ⟨some ⟨some "<f4>"⟩, some ⟨none, defaultUrl⟩⟩ :=
  settings_roundtrip [] (some "<f4>") none defaultUrl
    (fun v hv => by cases hv; exact ⟨by decide, by decide⟩)
    (fun v hv => by cases hv)
    (by decide) (by decide)

/-- C8 counterexample: a keybind field holding the empty string is dropped
on save (falsy-value filter in `write_ini_file`) and reloads as `None`, so
the round-trip is not the identity on every `AppSettings` value. -/
theorem settings_roundtrip_cex :
    AppSettings.from_ini (AppSettings.save ⟨some ⟨some ""⟩, some ⟨none, defaultUrl⟩⟩) []
      ≠ ⟨some ⟨some ""⟩, some ⟨none, defaultUrl⟩⟩ := by
  decide

/-! ## The full capture sequence (C1) -/

/-- Whether a key is a modifier (a `Key` whose canonical form is still a
`Key`). -/
def isModKey : RawKey → Bool
  | .mod _ _ => true
  | _ => false

/-- Pressing a fresh modifier while nothing is latched records it and
appends its bracketed canonical name. -/
theorem on_press_fresh_mod (s : KPState) (raw canon : String)
    (hkey : s.key = none) (hmem : RawKey.mod raw canon ∉ s.pressed)
    (hname : bracket canon ∉ s.modifiers) :
    on_press s (RawKey.mod raw canon) =
      ({ s with
         modifiers := s.modifiers ++ [bracket canon],
         pressed := s.pressed ++ [RawKey.mod raw canon] }, true) := by
  unfold on_press
  simp [hmem, hkey, hname]

/-- Pressing a fresh non-modifier, non-Escape key while nothing is latched
latches its canonical token. -/
theorem on_press_nonmod (s : KPState) (nm : RawKey) (hmod : isModKey nm = false)
    (hesc : nm ≠ RawKey.special "esc") (hkey : s.key = none) (hmem : nm ∉ s.pressed) :
    on_press s nm =
      ({ s with key := some (canonicalToken nm), pressed := s.pressed ++ [nm] }, true) := by
  cases nm with
  | mod r c => simp [isModKey] at hmod
  | special n =>
    unfold on_press
    rw [if_neg hesc]
    simp [hmem, hkey, canonicalToken]
  | code vk ch =>
    unfold on_press
    simp [hmem, hkey, canonicalToken]

/-- Pressing a list of distinct fresh modifiers appends their bracketed
names in press order and holds all of them. -/
theorem run_press_mods (mods : List (String × String)) (s : KPState)
    (hkey : s.key = none)
    (hpressed : ∀ p ∈ mods, RawKey.mod p.1 p.2 ∉ s.pressed)
    (hmodifiers : ∀ p ∈ mods, bracket p.2 ∉ s.modifiers)
    (hnodup : (mods.map fun p => RawKey.mod p.1 p.2).Nodup)
    (hcanon : (mods.map fun p => bracket p.2).Nodup) :
    runListener s (mods.map fun p => KEvent.press (RawKey.mod p.1 p.2)) =
      ({ key := none,
         modifiers := s.modifiers ++ mods.map (fun p => bracket p.2),
         pressed := s.pressed ++ mods.map (fun p => RawKey.mod p.1 p.2) }, true) := by
  induction mods generalizing s with
  | nil =>
    rcases s with ⟨sk, sm, sp⟩
    simp only at hkey
    subst hkey
    simp [runListener]
  | cons p ps ih =>
    simp only [List.map_cons, List.nodup_cons] at hnodup hcanon
    obtain ⟨hnd1, hnd2⟩ := hnodup
    obtain ⟨hc1, hc2⟩ := hcanon
    simp only [List.map_cons, runListener, stepEvent]
    rw [on_press_fresh_mod s p.1 p.2 hkey (hpressed p (List.mem_cons_self p ps))
      (hmodifiers p (List.mem_cons_self p ps))]
    dsimp only
    rw [ih]
    · simp
    · exact hkey
    · intro q hq hmemq
      rcases List.mem_append.mp hmemq with h1 | h1
      · exact hpressed q (List.mem_cons_of_mem p hq) h1
      · rw [List.mem_singleton] at h1
        exact hnd1 (h1 ▸ List.mem_map_of_mem _ hq)
    · intro q hq hmemq
      rcases List.mem_append.mp hmemq with h1 | h1
      · exact hmodifiers q (List.mem_cons_of_mem p hq) h1
      · rw [List.mem_singleton] at h1
        exact hc1 (h1 ▸ List.mem_map_of_mem _ hq)
    · exact hnd2
    · exact hc2

/-- Releasing the held keys in any order terminates the listener with the
modifier list and latched token untouched. -/
theorem run_releases (rels : List RawKey) (s : KPState)
    (hne : s.pressed ≠ [])
    (hperm : rels.Perm s.pressed) :
    runListener s (rels.map KEvent.release) = ({ s with pressed := [] }, false) := by
  induction rels generalizing s with
  | nil => exact absurd hperm.symm.eq_nil hne
  | cons r rest ih =>
    have hrmem : r ∈ s.pressed := hperm.subset (List.mem_cons_self r rest)
    have hrest : rest.Perm (s.pressed.erase r) :=
      ((List.perm_cons_erase hrmem).symm.trans hperm.symm).symm.cons_inv
    simp only [List.map_cons, runListener, stepEvent, on_release, if_pos hrmem]
    by_cases he : s.pressed.erase r = []
    · simp [he]
    · have hne2 : (s.pressed.erase r).isEmpty = false := by
        cases h : s.pressed.erase r with
        | nil => exact absurd h he
        | cons a l => rfl
      simp only [hne2, Bool.not_false]
      rw [ih _ he hrest]

/-- C1: for a key-down sequence of distinct modifiers followed by one
non-modifier key-down and key-ups of all held keys (in any order),
`read_key` returns the modifiers' bracketed canonical names in press order
followed by the canonical token of the non-modifier, `+`-joined. -/
theorem read_key_combination (mods : List (String × String)) (nm : RawKey) (rels : List RawKey)
    (hnodup : (mods.map fun p => RawKey.mod p.1 p.2).Nodup)
    (hcanon : (mods.map fun p => bracket p.2).Nodup)
    (hmod : isModKey nm = false)
    (hesc : nm ≠ RawKey.special "esc")
    (htok : canonicalToken nm ≠ "")
    (hperm : rels.Perm ((mods.map fun p => RawKey.mod p.1 p.2) ++ [nm])) :
    read_key ((mods.map fun p => KEvent.press (RawKey.mod p.1 p.2))
        ++ KEvent.press nm :: rels.map KEvent.release)
      = some (joinPlus (mods.map (fun p => bracket p.2) ++ [canonicalToken nm])) := by
  have hnm_mem : nm ∉ cleanState.pressed ++ mods.map (fun p => RawKey.mod p.1 p.2) := by
    intro hmem
    rcases (by simpa [cleanState] using hmem :
      ∃ a b, (a, b) ∈ mods ∧ RawKey.mod a b = nm) with ⟨a, b, hab, hEq⟩
    rw [← hEq] at hmod
    simp [isModKey] at hmod
  unfold read_key
  rw [runListener_append]
  rw [run_press_mods mods cleanState rfl (by simp [cleanState]) (by simp [cleanState]) hnodup hcanon]
  dsimp only
  simp only [runListener, stepEvent]
  rw [on_press_nonmod _ nm hmod hesc rfl hnm_mem]
  dsimp only
  rw [run_releases rels _ (by simp) (by simpa [cleanState] using hperm)]
  simp [read_result, htok, cleanState]

/-- Evaluation of C1 at ctrl, shift, then F4, released in press order. -/
theorem read_key_combination_witness :
    read_key ([("ctrl", "ctrl"), ("shift", "shift")].map
        (fun p => KEvent.press (RawKey.mod p.1 p.2))
        ++ KEvent.press (RawKey.special "f4")
          :: [RawKey.mod "ctrl" "ctrl", RawKey.mod "shift" "shift",
              RawKey.special "f4"].map KEvent.release)
      = some (joinPlus ([("ctrl", "ctrl"), ("shift", "shift")].map (fun p => bracket p.2)
          ++ [canonicalToken (RawKey.special "f4")])) :=
  read_key_combination [("ctrl", "ctrl"), ("shift", "shift")] (RawKey.special "f4")
    [RawKey.mod "ctrl" "ctrl", RawKey.mod "shift" "shift", RawKey.special "f4"]
    (by decide) (by decide) (by decide) (by decide) (by decide) (List.Perm.refl _)

/-! ## The transcoder on well-formed combinations (C2) -/

/-- Splitting at a separator that does not occur returns the whole list. -/
theorem splitChar_no_sep (sep : Char) (l : List Char) (h : sep ∉ l) :
    splitChar sep l = [l] := by
  induction l with
  | nil => rfl
  | cons c cs ih =>
    rw [splitChar]
    rw [List.mem_cons, not_or] at h
    rw [if_neg (fun hc => h.1 hc.symm)]
    rw [ih h.2]

/-- Splitting a separator-free piece followed by a separator peels the
piece off. -/
theorem splitChar_append_sep (sep : Char) (l rest : List Char) (h : sep ∉ l) :
    splitChar sep (l ++ sep :: rest) = l :: splitChar sep rest := by
  induction l with
  | nil => simp [splitChar]
  | cons c cs ih =>
    rw [List.mem_cons, not_or] at h
    rw [List.cons_append, splitChar, if_neg (fun hc => h.1 hc.symm), ih h.2]

/-- Unfolding of the join on at least two pieces. -/
theorem joinPlusL_cons_cons (cs cs2 : List Char) (rest : List (List Char)) :
    joinPlusL (cs :: cs2 :: rest) = cs ++ '+' :: joinPlusL (cs2 :: rest) := rfl

/-- Splitting a `+`-join of `+`-free pieces recovers the pieces. -/
theorem splitChar_joinPlusL (css : List (List Char)) (hne : css ≠ [])
    (h : ∀ cs ∈ css, '+' ∉ cs) :
    splitChar '+' (joinPlusL css) = css := by
  induction css with
  | nil => exact absurd rfl hne
  | cons cs rest ih =>
    cases rest with
    | nil =>
      rw [joinPlusL, splitChar_no_sep '+' cs (h cs (List.mem_cons_self cs []))]
    | cons cs2 rest2 =>
      rw [joinPlusL_cons_cons, splitChar_append_sep '+' cs _ (h cs (List.mem_cons_self cs _))]
      rw [ih (List.cons_ne_nil cs2 rest2) (fun x hx => h x (List.mem_cons_of_mem cs hx))]

/-- `keys.split('+')` recovers the tokens of a `+`-join of `+`-free
tokens. -/
theorem pySplit_joinPlus (ts : List String) (hne : ts ≠ [])
    (h : ∀ t ∈ ts, '+' ∉ t.data) :
    pySplit (joinPlus ts) = ts := by
  unfold pySplit joinPlus
  have hdata : (String.mk (joinPlusL (ts.map String.data))).data
      = joinPlusL (ts.map String.data) := rfl
  rw [hdata]
  rw [splitChar_joinPlusL (ts.map String.data) (by simpa using hne)]
  · rw [List.map_map]
    have hid : String.mk ∘ String.data = id := funext fun s => rfl
    rw [hid, List.map_id]
  · intro cs hcs
    rcases List.mem_map.mp hcs with ⟨t, ht, rfl⟩
    exact h t ht

/-- A successful association-list lookup found one of the entries. -/
theorem lookup_mem {α β : Type} [BEq α] [LawfulBEq α] {l : List (α × β)} {k : α} {v : β}
    (h : l.lookup k = some v) : (k, v) ∈ l := by
  induction l with
  | nil => simp [List.lookup] at h
  | cons p ps ih =>
    rw [List.lookup] at h
    cases hk : (k == p.1) with
    | true =>
      rw [hk] at h
      obtain rfl : p.2 = v := Option.some.inj h
      obtain rfl : k = p.1 := eq_of_beq hk
      exact List.mem_cons_self _ _
    | false =>
      rw [hk] at h
      exact List.mem_cons_of_mem p (ih h)

/-- The token classes the claim speaks about: a bracketed modifier token, a
plain single-character token other than `+` itself, or the bracketed name
of a non-modifier key known to the hotkey facility's table. -/
def tokSpec (t : String) : Prop :=
  t ∈ modTokens
  ∨ (t.length = 1 ∧ t ≠ "+")
  ∨ (∃ name vk, keyNameTable.lookup name = some vk ∧ name ∉ modNames ∧ t = bracket name)

/-- The claim-side description of the transcoder's output on one token:
modifier tokens and single-character tokens are unchanged, a bracketed
non-modifier name becomes the bracketed decimal virtual-key code the
parser's table reports for it. -/
def specReplace (t : String) : String :=
  if t ∈ modTokens ∨ t.length = 1 then t
  else
    match t.data with
    | '<' :: rest =>
      (match keyNameTable.lookup (String.mk rest.dropLast) with
       | some vk => "<" ++ toString vk ++ ">"
       | none => t)
    | _ => t

/-- No key name in the facility's table contains `+`. -/
theorem table_no_plus : ∀ p ∈ keyNameTable, '+' ∉ p.1.data := by decide

/-- No bracketed key name from the table contains the substring
`numpad_`. -/
theorem table_no_numpad : ∀ p ∈ keyNameTable, containsNumpad (bracket p.1).data = false := by
  decide

/-- No key name in the table is all digits. -/
theorem table_no_digits : ∀ p ∈ keyNameTable, parseDigits p.1.data = none := by decide

/-- A one-character token cannot contain the seven-character pattern. -/
theorem containsNumpad_singleton (c : Char) : containsNumpad [c] = false := by
  simp [containsNumpad, List.isPrefixOf]

/-- The characters of a bracketed name. -/
theorem bracket_data (s : String) : (bracket s).data = '<' :: (s.data ++ ['>']) := by
  rw [bracket, String.data_append, String.data_append]
  rfl

/-- Bracketing is injective. -/
theorem bracket_inj {a b : String} (h : bracket a = bracket b) : a = b := by
  have hd := congrArg String.data h
  rw [bracket_data, bracket_data] at hd
  simp at hd
  exact String.ext hd

/-- Rebuilding a string from its characters is the identity. -/
theorem mk_data (s : String) : String.mk s.data = s := rfl

/-- Tokens of the claim's classes are free of `+`. -/
theorem tokSpec_no_plus (t : String) (h : tokSpec t) : '+' ∉ t.data := by
  rcases h with hm | ⟨hl, hne⟩ | ⟨name, vk, hlk, hnm, rfl⟩
  · simp only [modTokens, modNames, List.map_cons, List.map_nil, List.mem_cons,
      List.not_mem_nil, or_false] at hm
    rcases hm with rfl | rfl | rfl | rfl <;> decide
  · obtain ⟨c, hc⟩ := List.length_eq_one.mp hl
    rw [hc]
    intro hmem
    rw [List.mem_singleton] at hmem
    apply hne
    apply String.ext
    rw [hc, ← hmem]
  · rw [bracket_data]
    intro hmem
    rcases List.mem_cons.mp hmem with h1 | h1
    · exact absurd h1 (by decide)
    · rcases List.mem_append.mp h1 with h2 | h2
      · exact table_no_plus (name, vk) (lookup_mem hlk) h2
      · rw [List.mem_singleton] at h2
        exact absurd h2 (by decide)

/-- Tokens of the claim's classes pass `_transform` unchanged (none
contains `numpad_`). -/
theorem tokSpec_transform (t : String) (h : tokSpec t) : _transform t = .ok t := by
  have hnp : containsNumpad t.data = false := by
    rcases h with hm | ⟨hl, hne⟩ | ⟨name, vk, hlk, hnm, rfl⟩
    · simp only [modTokens, modNames, List.map_cons, List.map_nil, List.mem_cons,
        List.not_mem_nil, or_false] at hm
      rcases hm with rfl | rfl | rfl | rfl <;> decide
    · obtain ⟨c, hc⟩ := List.length_eq_one.mp hl
      rw [hc]
      exact containsNumpad_singleton c
    · exact table_no_numpad (name, vk) (lookup_mem hlk)
  simp [_transform, hnp]

/-- Tokens of the claim's classes parse, and the transcoder's per-key
replacement on the parsed key realises the claim-side description. -/
theorem tokSpec_parse (t : String) (h : tokSpec t) :
    ∃ pk, parsePart t = some pk ∧ replaceStep pk t = specReplace t := by
  rcases h with hm | ⟨hl, hne⟩ | ⟨name, vk, hlk, hnm, rfl⟩
  · simp only [modTokens, modNames, List.map_cons, List.map_nil, List.mem_cons,
      List.not_mem_nil, or_false] at hm
    rcases hm with rfl | rfl | rfl | rfl <;> exact ⟨_, rfl, by decide⟩
  · refine ⟨ParsedKey.charKey t, ?_, ?_⟩
    · unfold parsePart
      rw [if_pos hl]
    · unfold specReplace
      rw [if_pos (Or.inr hl)]
      rfl
  · have hbd : (bracket name).data = '<' :: (name.data ++ ['>']) := bracket_data name
    have hlen : ¬ (bracket name).length = 1 := by
      have h2 : (bracket name).length = name.data.length + 2 := by
        show (bracket name).data.length = _
        rw [hbd]
        simp
      omega
    have htm : bracket name ∉ modTokens := by
      intro hmem
      rcases List.mem_map.mp hmem with ⟨m, hmm, hEq⟩
      exact hnm (bracket_inj hEq ▸ hmm)
    have hnd : parseDigits name.data = none := table_no_digits (name, vk) (lookup_mem hlk)
    refine ⟨ParsedKey.namedKey name vk, ?_, ?_⟩
    · unfold parsePart
      rw [if_neg hlen]
      simp only [hbd, List.getLast?_concat, List.dropLast_concat, mk_data, hnd, hlk]
    · unfold specReplace replaceStep
      dsimp only
      rw [if_neg hnm, if_neg (by rintro (h1 | h1); exacts [htm h1, hlen h1])]
      simp only [hbd, List.dropLast_concat, mk_data, hlk]

/-- The `_transform` loop is the identity on a list of unchanged tokens. -/
theorem mapTransform_ok (ts : List String) (h : ∀ t ∈ ts, _transform t = .ok t) :
    mapTransform ts = .ok ts := by
  induction ts with
  | nil => rfl
  | cons t ts ih =>
    rw [mapTransform, h t (List.mem_cons_self t ts),
      ih (fun x hx => h x (List.mem_cons_of_mem t hx))]

/-- Lifting the per-token parse/replace description to the token list. -/
theorem parseAll_ok (ts : List String)
    (h : ∀ t ∈ ts, ∃ pk, parsePart t = some pk ∧ replaceStep pk t = specReplace t) :
    ∃ pks, parseAll ts = some pks ∧
      (pks.zip ts).map (fun x => replaceStep x.1 x.2) = ts.map specReplace := by
  induction ts with
  | nil => exact ⟨[], rfl, rfl⟩
  | cons t ts ih =>
    obtain ⟨pk, hp, hr⟩ := h t (List.mem_cons_self t ts)
    obtain ⟨pks, hps, hmap⟩ := ih (fun x hx => h x (List.mem_cons_of_mem t hx))
    refine ⟨pk :: pks, ?_, ?_⟩
    · rw [parseAll, hp, hps]
    · simp only [List.zip_cons_cons, List.map_cons, hr, hmap]

/-- C2: on every combination of modifier tokens, plain single-character
tokens and bracketed named-key tokens, `prepare_for_global_hotkey` keeps
modifier and single-character tokens unchanged and replaces each
non-modifier named-key token with the bracketed decimal virtual-key code
the parser reports; in particular `<ctrl>+<f3>` maps to `<ctrl>+<114>` and
`a` maps to itself. -/
theorem prepare_spec :
    (∀ ts : List String, ts ≠ [] → (∀ t ∈ ts, tokSpec t) →
      prepare_for_global_hotkey (joinPlus ts) = .ok (joinPlus (ts.map specReplace)))
    ∧ prepare_for_global_hotkey "<ctrl>+<f3>" = .ok "<ctrl>+<114>"
    ∧ prepare_for_global_hotkey "a" = .ok "a" := by
  refine ⟨fun ts hne hspec => ?_, by decide, by decide⟩
  have hplus : ∀ t ∈ ts, '+' ∉ t.data := fun t ht => tokSpec_no_plus t (hspec t ht)
  unfold prepare_for_global_hotkey
  rw [pySplit_joinPlus ts hne hplus]
  rw [mapTransform_ok ts (fun t ht => tokSpec_transform t (hspec t ht))]
  dsimp only
  obtain ⟨pks, hps, hmap⟩ := parseAll_ok ts (fun t ht => tokSpec_parse t (hspec t ht))
  rw [hps]
  dsimp only
  rw [hmap]

/-- Evaluation of the general part of C2 at the token list
`[<ctrl>, a]`. -/
theorem prepare_spec_witness :
    prepare_for_global_hotkey (joinPlus ["<ctrl>", "a"])
      = .ok (joinPlus (["<ctrl>", "a"].map specReplace)) :=
  prepare_spec.1 ["<ctrl>", "a"] (by decide)
    (by
      intro t ht
      rcases List.mem_cons.mp ht with rfl | ht2
      · exact Or.inl (by decide)
      · rcases List.mem_cons.mp ht2 with rfl | ht3
        · exact Or.inr (Or.inl ⟨by decide, by decide⟩)
        · exact absurd ht3 (List.not_mem_nil t))
